import Mathlib

/-!
Verification development for the ahjo database deployment framework.

The definitions below are shallow embeddings of the Python source files
`src/ahjo/operations/general/sqlfiles.py` and `src/ahjo/action.py`.
Python callables that touch the database are modelled as state-passing
functions `cmd : sigma -> String -> sigma * Option String`, where the
returned `Option String` is `none` on success and `some err` when the
call raised an exception with message `err`.  Python dicts keyed by
strings are modelled as association lists with dict semantics
(assignment to an existing key replaces in place, new keys append).
-/

instance {ε α : Type} [DecidableEq ε] [DecidableEq α] : DecidableEq (Except ε α) := fun x y =>
  match x, y with
  | Except.ok a, Except.ok b =>
    if h : a = b then isTrue (by rw [h]) else isFalse (by intro hc; cases hc; exact h rfl)
  | Except.error a, Except.error b =>
    if h : a = b then isTrue (by rw [h]) else isFalse (by intro hc; cases hc; exact h rfl)
  | Except.ok _, Except.error _ => isFalse (by intro hc; cases hc)
  | Except.error _, Except.ok _ => isFalse (by intro hc; cases hc)

/-- Error accumulator of `sql_file_loop`: models the Python
`defaultdict(set)` mapping a file name to the set of error strings
collected for it.  Each set is modelled as an insertion-ordered
duplicate-free list of strings. -/
abbrev ErrMap := List (String × List String)

/-- Models `errors[file].add(error_str)` on a `defaultdict(set)`:
inserts `e` into the set stored at key `f`, creating the entry if the
key is absent, and keeping the set duplicate-free. -/
def errAdd : ErrMap → String → String → ErrMap
  | [], f, e => [(f, [e])]
  | (g, es) :: rest, f, e =>
    if g = f then (g, if e ∈ es then es else es ++ [e]) :: rest
    else (g, es) :: errAdd rest f e

/-- Models reading `errors[f]` from the `defaultdict(set)`: returns the
stored set (as a list), or the empty set when the key is absent. -/
def errGet (m : ErrMap) (f : String) : List String :=
  match m.find? (fun p => p.1 == f) with
  | some p => p.2
  | none => []

/-- Helper for `dedup_keys`: keeps the first occurrence of every key,
skipping keys already seen. -/
def dedup_keys_aux (seen : List String) : List String → List String
  | [] => []
  | f :: rest =>
    if f ∈ seen then dedup_keys_aux seen rest
    else f :: dedup_keys_aux (f :: seen) rest

/-- Models the Python dict comprehension key order: duplicate keys
collapse onto their first occurrence. -/
def dedup_keys (l : List String) : List String :=
  dedup_keys_aux [] l

/-- One round of `sql_file_loop` (`sqlfiles.py` lines 168-174): iterate
over the snapshot `copy_list_loop`, run the command on each file, remove
the file from `copy_list` on success, and record
`'\n------\n' + str(error)` in the error map on failure. -/
def sql_round {σ : Type} (cmd : σ → String → σ × Option String) :
    List String → σ → List String → ErrMap → σ × List String × ErrMap
  | [], s, cl, errs => (s, cl, errs)
  | f :: rest, s, cl, errs =>
    match cmd s f with
    | (s2, none) => sql_round cmd rest s2 (cl.erase f) errs
    | (s2, some e) => sql_round cmd rest s2 cl (errAdd errs f ("\n------\n" ++ e))

/-- The `for _ in range(max_loop)` loop of `sql_file_loop`: each
iteration snapshots the current `copy_list` into `copy_list_loop` and
runs one round over it. -/
def sql_file_loop_aux {σ : Type} (cmd : σ → String → σ × Option String) :
    Nat → σ → List String → ErrMap → σ × List String × ErrMap
  | 0, s, cl, errs => (s, cl, errs)
  | n + 1, s, cl, errs =>
    let r := sql_round cmd cl s cl errs
    sql_file_loop_aux cmd n r.1 r.2.1 r.2.2

/-- Embeds `sql_file_loop` (`sqlfiles.py` lines 140-178) with an
explicit `max_loop` argument.  Starts from a copy of `file_list`, runs
up to `max_loop` rounds, and if files remain returns the mapping
`{f: list(errors[f]) for f in copy_list}`, else the empty mapping. -/
def sql_file_loop {σ : Type} (cmd : σ → String → σ × Option String)
    (s0 : σ) (file_list : List String) (max_loop : Nat) : ErrMap :=
  let r := sql_file_loop_aux cmd max_loop s0 file_list []
  let copy_list := r.2.1
  if copy_list.length > 0 then
    (dedup_keys copy_list).map (fun f => (f, errGet r.2.2 f))
  else []

/-- Embeds a call of `sql_file_loop` that omits `max_loop`: the Python
signature is `def sql_file_loop(command, *args, file_list, max_loop=10)`,
so the bound defaults to the literal `10`. -/
def sql_file_loop_default {σ : Type} (cmd : σ → String → σ × Option String)
    (s0 : σ) (file_list : List String) : ErrMap :=
  sql_file_loop cmd s0 file_list 10

/-- Helper for `split_char`: walks the character list, cutting at every
occurrence of the separator character. -/
def split_char_aux (c : Char) : List Char → List Char → List String
  | [], cur => [String.mk cur.reverse]
  | x :: xs, cur =>
    if x = c then String.mk cur.reverse :: split_char_aux c xs []
    else split_char_aux c xs (x :: cur)

/-- Embeds Python `str.split(c)` for a one-character separator, e.g.
`basename(file).split('.')` in `drop_sql_from_file`.  Splitting the
empty string yields `[""]`, as in Python. -/
def split_char (c : Char) (s : String) : List String :=
  split_char_aux c s.data []

/-- Embeds Python `str.endswith(suffix)`. -/
def str_endswith (s suffix : String) : Bool :=
  suffix.data.isSuffixOf s.data

/-- Embeds Python `str.startswith(prefix)`. -/
def str_startswith (s pre : String) : Bool :=
  pre.data.isPrefixOf s.data

/-- Embeds `os.path.join(directory, f)` for POSIX paths as used in
`deploy_sqlfiles` line 45. -/
def path_join (d f : String) : String :=
  if str_startswith f "/" then f
  else if d = "" then f
  else if str_endswith d "/" then d ++ f
  else d ++ "/" ++ f

/-- Builds the `RuntimeError` message of `deploy_sqlfiles` lines 50-53:
the header, the newline-joined failed file names, then for each failed
file the concatenation of its error messages. -/
def deploy_failure_message (failed : ErrMap) : String :=
  "Failed to deploy the following files:\n"
    ++ String.intercalate "\n" (failed.map Prod.fst)
    ++ String.join (failed.map (fun p => String.join p.2))

/-- Embeds `deploy_sqlfiles` (`sqlfiles.py` lines 18-55).  The directory
check `Path(directory).is_dir()` is modelled by the boolean `dir_ok` and
`listdir(directory)` by `listing`; the per-file deployment command is
the abstract state-passing `cmd`.  A raised `RuntimeError` is modelled
as `Except.error` carrying the message; the `return False` and
`return True` paths are `Except.ok false` and `Except.ok true`. -/
def deploy_sqlfiles {σ : Type} (cmd : σ → String → σ × Option String)
    (s0 : σ) (dir_ok : Bool) (directory : String) (listing : List String) :
    Except String Bool :=
  if !dir_ok then Except.ok false
  else
    let files := (listing.filter (fun f => str_endswith f ".sql")).map (path_join directory)
    let failed := sql_file_loop cmd s0 files files.length
    if failed.length > 0 then Except.error (deploy_failure_message failed)
    else Except.ok true

/-- Embeds `os.path.basename` for POSIX paths: the part after the last
slash. -/
def basename (p : String) : String :=
  (split_char '/' p).getLastD ""

/-- Embeds `drop_sql_from_file` (`sqlfiles.py` lines 112-137).  The
object name is derived from the file name split on `.`; assemblies use
the first segment, every other object type requires exactly three
segments and uses `parts[0] + '.' + parts[1]`.  The final
`execute_try_catch(engine, query)` swallows database errors, so the
embedding returns the executed query on success; the naming-convention
`RuntimeError` is `Except.error`. -/
def drop_sql_from_file (object_type file : String) : Except String String :=
  let parts := split_char '.' (basename file)
  if object_type = "ASSEMBLY" then
    Except.ok ("DROP " ++ object_type ++ " " ++ parts.headD "")
  else
    match parts with
    | [s, o, _] => Except.ok ("DROP " ++ object_type ++ " " ++ (s ++ "." ++ o))
    | _ => Except.error ("File " ++ file ++ " not in <schema.object.sql> format.")

/-- A Python value returned by an action function.  A multiaction
returns the list of its subactions' return values, so the value type is
closed under list formation. -/
inductive PyVal : Type where
  | str : String → PyVal
  | list : List PyVal → PyVal

/-- Embeds the `ActionRegisteration` class of `action.py` (lines 47-61):
the registration information of an action.  `α` is the type of the
argument tuple the action function receives (the `Context` plus extra
arguments), and `baseactions` is the source's name for what the spec
calls `composed_of`. -/
structure ActionRegisteration (α : Type) : Type where
  function : α → PyVal
  name : String
  affects_database : Bool
  dependencies : Finset String
  baseactions : Finset String

/-- The process-wide `registered_actions` dict, modelled as an
association list with unique keys maintained by `dict_insert`. -/
abbrev Registry (α : Type) := List (String × ActionRegisteration α)

/-- Embeds assignment `registered_actions[name] = self` on a Python
dict: replaces the value in place when the key exists, otherwise
appends (insertion order preserved). -/
def dict_insert {α : Type} (reg : Registry α) (k : String) (v : ActionRegisteration α) :
    Registry α :=
  if reg.any (fun p => p.1 == k) then
    reg.map (fun p => if p.1 == k then (k, v) else p)
  else reg ++ [(k, v)]

/-- Embeds `registered_actions.get(name)` / `registered_actions[name]`:
lookup by key, `none` when absent. -/
def dict_lookup {α : Type} (reg : Registry α) (k : String) :
    Option (ActionRegisteration α) :=
  (reg.find? (fun p => p.1 == k)).map (fun p => p.2)

/-- Embeds `ActionRegisteration.__init__` followed by its `register()`
call: builds the registration (with `baseactions` defaulting to
`{name}` when not given, as in the constructor) and stores it in the
registry. -/
def register_action {α : Type} (reg : Registry α) (f : α → PyVal) (name : String)
    (affects_database : Bool) (dependencies : Finset String)
    (baseactions : Option (Finset String)) : Registry α :=
  dict_insert reg name
    { function := f, name := name, affects_database := affects_database,
      dependencies := dependencies, baseactions := baseactions.getD {name} }

/-- Embeds `create_multiaction` (`action.py` lines 87-120).  Looks up
every subaction (`none` models the `KeyError` on an unregistered name),
computes `affects_database` as `any`, `baseactions` as the union of the
subactions' `baseactions`, `dependencies` as the union of their
dependencies minus `baseactions`, builds the function that runs the
subaction functions in order and collects their results, and registers
the new action.  Returns the updated registry. -/
def create_multiaction {α : Type} (reg : Registry α) (action_name : String)
    (subactions : List String) : Option (Registry α) :=
  match subactions.mapM (fun sa => dict_lookup reg sa) with
  | none => none
  | some registerations =>
    let affects_database := registerations.any (fun r => r.affects_database)
    let baseactions := registerations.foldl (fun acc r => acc ∪ r.baseactions) ∅
    let dependencies :=
      (registerations.foldl (fun acc r => acc ∪ r.dependencies) ∅) \ baseactions
    let func := fun a => PyVal.list (registerations.map (fun r => r.function a))
    some (dict_insert reg action_name
      { function := func, name := action_name, affects_database := affects_database,
        dependencies := dependencies, baseactions := baseactions })

/-- Embeds `check_action_validity` (`action.py` lines 123-149): the
action must be permitted by `allowed_actions` (or the wildcard `ALL`),
the registry must be non-empty, and the name must be registered. -/
def check_action_validity {α : Type} (reg : Registry α) (action_name : String)
    (allowed_actions : List String) : Bool :=
  if ¬(action_name ∈ allowed_actions) ∧ ¬("ALL" ∈ allowed_actions) then false
  else if reg.length = 0 then false
  else if (dict_lookup reg action_name).isNone then false
  else true

/-- Result of `ActionRegisteration.pre_exec_check` (`action.py` lines
63-74): `proceed` is the returned boolean, `prompted` records whether
the `are_you_sure` confirmation gate was entered. -/
structure PreExecResult : Type where
  proceed : Bool
  prompted : Bool

/-- Embeds `pre_exec_check`: when `affects_database` is true the user is
prompted and their answer decides the outcome; otherwise the check
passes without prompting.  `answer` models the reply `are_you_sure`
would return. -/
def pre_exec_check {α : Type} (a : ActionRegisteration α) (answer : Bool) : PreExecResult :=
  if a.affects_database then { proceed := answer, prompted := true }
  else { proceed := true, prompted := false }

/-- Embeds `execute_action` (`action.py` lines 152-175).  Returns the
Python return value (`none` models the implicit `return None` of the
validity-failure and declined-confirmation paths) paired with the
number of times the action's function was invoked. -/
def execute_action {α : Type} (reg : Registry α) (action_name : String)
    (allowed_actions : List String) (answer : Bool) (ctx : α) :
    Option PyVal × Nat :=
  if ¬(check_action_validity reg action_name allowed_actions = true) then (none, 0)
  else
    match dict_lookup reg action_name with
    | none => (none, 0)
    | some a =>
      if ¬((pre_exec_check a answer).proceed = true) then (none, 0)
      else (some (a.function ctx), 1)

/-- A heap of Python list objects.  Variables hold references (cell
indices); `list.copy()` allocates a fresh cell, while in-place methods
such as `list.remove` mutate the referenced cell.  This finer-grained
embedding of `sql_file_loop` makes the copy-versus-alias distinction of
the Python source visible, so that non-mutation of the caller's
`file_list` object is expressible. -/
structure PyListHeap : Type where
  cells : List (List String)

/-- Allocates a fresh list object holding `v` and returns its
reference. -/
def heap_alloc (h : PyListHeap) (v : List String) : PyListHeap × Nat :=
  ({ cells := h.cells ++ [v] }, h.cells.length)

/-- Reads the list object referenced by `r`. -/
def heap_read (h : PyListHeap) (r : Nat) : List String :=
  (h.cells.get? r).getD []

/-- Overwrites the list object referenced by `r`. -/
def heap_write (h : PyListHeap) (r : Nat) (v : List String) : PyListHeap :=
  { cells := h.cells.set r v }

/-- Heap-level embedding of the inner `for file in copy_list_loop` loop
of `sql_file_loop`: `snapshot` is the value of the `copy_list_loop`
object (a cell never written during the round), and on success
`copy_list.remove(file)` mutates the cell `cl_ref`. -/
def sql_round_heap {σ : Type} (cmd : σ → String → σ × Option String) (cl_ref : Nat) :
    List String → σ → PyListHeap → ErrMap → σ × PyListHeap × ErrMap
  | [], s, h, errs => (s, h, errs)
  | f :: rest, s, h, errs =>
    match cmd s f with
    | (s2, none) =>
      sql_round_heap cmd cl_ref rest s2
        (heap_write h cl_ref ((heap_read h cl_ref).erase f)) errs
    | (s2, some e) =>
      sql_round_heap cmd cl_ref rest s2 h (errAdd errs f ("\n------\n" ++ e))

/-- Heap-level embedding of the `for _ in range(max_loop)` loop: each
round allocates `copy_list_loop = copy_list.copy()` and iterates over
it. -/
def sql_file_loop_heap_aux {σ : Type} (cmd : σ → String → σ × Option String)
    (cl_ref : Nat) : Nat → σ → PyListHeap → ErrMap → σ × PyListHeap × ErrMap
  | 0, s, h, errs => (s, h, errs)
  | n + 1, s, h, errs =>
    let al := heap_alloc h (heap_read h cl_ref)
    let r := sql_round_heap cmd cl_ref (heap_read al.1 al.2) s al.1 errs
    sql_file_loop_heap_aux cmd cl_ref n r.1 r.2.1 r.2.2

/-- Heap-level embedding of `sql_file_loop`: the caller's `file_list`
is the object referenced by `fl_ref`; line 164 `copy_list =
file_list.copy()` allocates a fresh cell, and all removals hit that
fresh cell.  Returns the final heap together with the failure
mapping. -/
def sql_file_loop_heap {σ : Type} (cmd : σ → String → σ × Option String)
    (s0 : σ) (h0 : PyListHeap) (fl_ref : Nat) (max_loop : Nat) :
    PyListHeap × ErrMap :=
  let al := heap_alloc h0 (heap_read h0 fl_ref)
  let r := sql_file_loop_heap_aux cmd al.2 max_loop s0 al.1 []
  let copy_list := heap_read r.2.1 al.2
  (r.2.1,
    if copy_list.length > 0 then
      (dedup_keys copy_list).map (fun f => (f, errGet r.2.2 f))
    else [])

/-- Well-formedness of the error accumulator: every recorded entry set
is non-empty, duplicate-free, and each entry carries the
`'\n------\n'` separator prefix that line 173 of `sqlfiles.py`
prepends. -/
def ErrsGood (m : ErrMap) : Prop :=
  ∀ p ∈ m, p.2 ≠ [] ∧ p.2.Nodup ∧ ∀ e ∈ p.2, ∃ t, e = "\n------\n" ++ t

/-- Command used to refute C3: it counts invocations in its state and
fails the first nine calls; with three files, three rounds consume nine
failing calls, while ten rounds let every file succeed in round
four. -/
def cmdC3 : Nat → String → Nat × Option String :=
  fun s _ => (s + 1, if s < 9 then some "e" else none)

/-- Command that fails every invocation with the same error message. -/
def cmd_const_fail : Unit → String → Unit × Option String :=
  fun s _ => (s, some "boom")

/-- Concrete registration used in witnesses: a destructive action. -/
def act_demo : ActionRegisteration Unit :=
  { function := fun _ => PyVal.list [], name := "act", affects_database := true,
    dependencies := ∅, baseactions := {"act"} }

/-- Concrete one-entry registry used in witnesses. -/
def reg_demo : Registry Unit := dict_insert [] "act" act_demo

/-- Concrete primitive registration used in the C4 witness. -/
def act_a1 : ActionRegisteration Unit :=
  { function := fun _ => PyVal.str "a1", name := "a1", affects_database := false,
    dependencies := ∅, baseactions := {"a1"} }

/-- Concrete primitive registration used in the C4 witness; depends on
`a1` and affects the database. -/
def act_a2 : ActionRegisteration Unit :=
  { function := fun _ => PyVal.str "a2", name := "a2", affects_database := true,
    dependencies := {"a1"}, baseactions := {"a2"} }

/-- Concrete two-entry registry used in the C4 witness. -/
def reg_two : Registry Unit := dict_insert (dict_insert [] "a1" act_a1) "a2" act_a2

example : drop_sql_from_file "VIEW" "store.vwClients.sql"
    = Except.ok "DROP VIEW store.vwClients" := by decide

lemma find?_insert_present {α : Type} (k : String) (v : ActionRegisteration α) :
    ∀ reg : Registry α, reg.any (fun p => p.1 == k) = true →
    (reg.map (fun p => if p.1 == k then (k, v) else p)).find? (fun p => p.1 == k)
      = some (k, v) := by
  intro reg
  induction reg with
  | nil => intro h; simp at h
  | cons p rest ih =>
    intro h
    cases hp : (p.1 == k) with
    | true =>
      rw [List.map_cons, if_pos hp, List.find?_cons_of_pos _ (by simp)]
    | false =>
      have h2 : rest.any (fun q => q.1 == k) = true := by
        rw [List.any_cons, hp, Bool.false_or] at h
        exact h
      rw [List.map_cons, if_neg (by simp [hp]), List.find?_cons_of_neg _ (by simp [hp])]
      exact ih h2

lemma find?_insert_absent {α : Type} (k : String) (v : ActionRegisteration α) :
    ∀ reg : Registry α, reg.any (fun p => p.1 == k) = false →
    (reg ++ [(k, v)]).find? (fun p => p.1 == k) = some (k, v) := by
  intro reg
  induction reg with
  | nil => simp [List.find?]
  | cons p rest ih =>
    intro h
    have h1 : (p.1 == k) = false := by
      cases hpk : (p.1 == k) with
      | false => rfl
      | true =>
        rw [List.any_cons, hpk, Bool.true_or] at h
        exact absurd h (by simp)
    have h2 : rest.any (fun q => q.1 == k) = false := by
      rw [List.any_cons, h1, Bool.false_or] at h
      exact h
    rw [List.cons_append, List.find?_cons_of_neg _ (by simp [h1])]
    exact ih h2

lemma dict_lookup_insert_self {α : Type} (reg : Registry α) (k : String)
    (v : ActionRegisteration α) :
    dict_lookup (dict_insert reg k v) k = some v := by
  unfold dict_insert dict_lookup
  by_cases h : reg.any (fun p => p.1 == k) = true
  · rw [if_pos h, find?_insert_present k v reg h]; rfl
  · rw [if_neg h, find?_insert_absent k v reg (Bool.eq_false_iff.mpr h)]; rfl

/-- C8: registering an action under a name that is already present in
the registry succeeds silently and overwrites the previous
registration; after the second registration, lookup by that name
returns the newer action. -/
theorem register_overwrites {α : Type} (reg : Registry α) (name : String)
    (a1 a2 : ActionRegisteration α) :
    dict_lookup (dict_insert (dict_insert reg name a1) name a2) name = some a2 :=
  dict_lookup_insert_self (dict_insert reg name a1) name a2

/-- C5: `check_action_validity` returns true exactly when the name is
permitted (either listed or via the `ALL` wildcard), the registry is
non-empty and the name is registered; in particular it returns false on
an empty allowed list and on an empty registry. -/
theorem check_action_validity_spec {α : Type} (reg : Registry α) (action_name : String)
    (allowed_actions : List String) :
    (check_action_validity reg action_name allowed_actions = true ↔
      ((action_name ∈ allowed_actions ∨ "ALL" ∈ allowed_actions) ∧ reg ≠ [] ∧
        (dict_lookup reg action_name).isSome = true)) ∧
    check_action_validity reg action_name [] = false ∧
    check_action_validity ([] : Registry α) action_name allowed_actions = false := by
  refine ⟨?_, ?_, ?_⟩
  · unfold check_action_validity
    by_cases h1 : ¬(action_name ∈ allowed_actions) ∧ ¬("ALL" ∈ allowed_actions)
    · rw [if_pos h1]
      simp only [Bool.false_eq_true, false_iff]
      rintro ⟨hor, -⟩
      rcases h1 with ⟨hna, hnall⟩
      tauto
    · rw [if_neg h1]
      by_cases h2 : reg.length = 0
      · rw [if_pos h2]
        have hnil : reg = [] := List.length_eq_zero.mp h2
        simp [hnil]
      · rw [if_neg h2]
        by_cases h3 : (dict_lookup reg action_name).isNone
        · rw [if_pos h3]
          have hns : (dict_lookup reg action_name).isSome = false := by
            cases hh : dict_lookup reg action_name with
            | none => rfl
            | some w => rw [hh] at h3; simp at h3
          simp [hns]
        · rw [if_neg h3]
          have hor : action_name ∈ allowed_actions ∨ "ALL" ∈ allowed_actions := by tauto
          have hne : reg ≠ [] := fun hc => h2 (by simp [hc])
          have hsome : (dict_lookup reg action_name).isSome = true := by
            cases hh : dict_lookup reg action_name with
            | none => rw [hh] at h3; simp at h3
            | some w => rfl
          simp [hor, hne, hsome]
  · unfold check_action_validity
    rw [if_pos (by simp)]
  · unfold check_action_validity
    by_cases h1 : ¬(action_name ∈ allowed_actions) ∧ ¬("ALL" ∈ allowed_actions)
    · rw [if_pos h1]
    · rw [if_neg h1]
      simp

/-- C10: for object type `ASSEMBLY`, `drop_sql_from_file` never raises
the naming-convention error: whatever the number of dot-separated
segments in the file name, the object name is the first segment. -/
theorem drop_assembly_never_fails (file : String) :
    drop_sql_from_file "ASSEMBLY" file
      = Except.ok ("DROP " ++ "ASSEMBLY" ++ " "
          ++ (split_char '.' (basename file)).headD "") := by
  unfold drop_sql_from_file
  rw [if_pos rfl]

/-- C3 counterexample: calling `sql_file_loop` without an explicit
round bound runs 10 rounds, not `len(file_list)` rounds: under `cmdC3`
the default call fully succeeds while a 3-round call (3 = item count)
still reports all three files as failed. -/
theorem sql_file_loop_default_counterexample :
    sql_file_loop_default cmdC3 0 ["a", "b", "c"] = [] ∧
    sql_file_loop cmdC3 0 ["a", "b", "c"] (["a", "b", "c"].length) ≠ [] := by decide

/-- C3 amended: the round bound of `sql_file_loop` defaults to the
literal 10 (the callers `deploy_sqlfiles` and `drop_sqlfile_objects`
pass `max_loop=len(files)` explicitly). -/
theorem sql_file_loop_default_is_ten {σ : Type} (cmd : σ → String → σ × Option String)
    (s0 : σ) (file_list : List String) :
    sql_file_loop_default cmd s0 file_list = sql_file_loop cmd s0 file_list 10 := rfl

/-- C7: the dropped object's name is derived from the file name split
on dots: for a non-ASSEMBLY object type, exactly three segments yield
the two-part name `schema.object` and any other segment count raises
the naming-convention error; for `ASSEMBLY` the name is the first
segment. -/
theorem drop_sql_naming (t file a b c : String) (ht : t ≠ "ASSEMBLY") :
    (split_char '.' (basename file) = [a, b, c] →
      drop_sql_from_file t file
        = Except.ok ("DROP " ++ t ++ " " ++ (a ++ "." ++ b))) ∧
    ((split_char '.' (basename file)).length ≠ 3 →
      drop_sql_from_file t file
        = Except.error ("File " ++ file ++ " not in <schema.object.sql> format.")) ∧
    (∀ g : String, drop_sql_from_file "ASSEMBLY" g
      = Except.ok ("DROP " ++ "ASSEMBLY" ++ " "
          ++ (split_char '.' (basename g)).headD "")) := by
  refine ⟨?_, ?_, ?_⟩
  · intro h
    unfold drop_sql_from_file
    rw [if_neg ht, h]
  · intro h
    unfold drop_sql_from_file
    rw [if_neg ht]
    rcases hp : split_char '.' (basename file) with _ | ⟨x, _ | ⟨y, _ | ⟨z, rest⟩⟩⟩
    · rfl
    · rfl
    · rfl
    · cases rest with
      | nil => rw [hp] at h; simp at h
      | cons w ws => rfl
  · intro g
    unfold drop_sql_from_file
    rw [if_pos rfl]

/-- Witness for C7 at the spec's own example file names. -/
theorem drop_sql_naming_witness :
    drop_sql_from_file "VIEW" "store.vwClients.sql"
      = Except.ok ("DROP " ++ "VIEW" ++ " " ++ ("store" ++ "." ++ "vwClients")) :=
  (drop_sql_naming "VIEW" "store.vwClients.sql" "store" "vwClients" "sql"
    (by decide)).1 (by decide)

/-- C6: when an action's `affects_database` flag is true and the user
answers no at the confirmation gate, `execute_action` returns the
skipped outcome (`None`) with zero invocations of the action's
function; and the confirmation gate of `pre_exec_check` is entered
exactly when `affects_database` is true. -/
theorem execute_action_confirmation {α : Type} (reg : Registry α) (action_name : String)
    (allowed_actions : List String) (ctx : α) (a : ActionRegisteration α)
    (hlook : dict_lookup reg action_name = some a)
    (haff : a.affects_database = true) :
    execute_action reg action_name allowed_actions false ctx = (none, 0) ∧
    ∀ (b : ActionRegisteration α) (answer : Bool),
      (pre_exec_check b answer).prompted = b.affects_database := by
  constructor
  · unfold execute_action
    by_cases hv : check_action_validity reg action_name allowed_actions = true
    · rw [if_neg (by simp [hv]), hlook]
      show (if ¬(pre_exec_check a false).proceed = true then ((none : Option PyVal), 0)
        else (some (a.function ctx), 1)) = (none, 0)
      rw [if_pos (by simp [pre_exec_check, haff])]
    · rw [if_pos (by simp [hv])]
  · intro b answer
    unfold pre_exec_check
    by_cases hb : b.affects_database = true
    · rw [if_pos hb, hb]
    · rw [if_neg hb]
      simp only [Bool.not_eq_true] at hb
      rw [hb]

/-- Witness for C6: the registered destructive action is skipped with
zero function invocations when the user declines. -/
theorem execute_action_confirmation_witness :
    execute_action reg_demo "act" ["act"] false () = (none, 0) :=
  (execute_action_confirmation reg_demo "act" ["act"] () act_demo rfl rfl).1

/-- C2: with the directory present, `deploy_sqlfiles` raises the
aggregated `RuntimeError` exactly when the retry loop's failure mapping
is non-empty, and the message lists every failed file together with its
accumulated error history; when no file of the listing matches `.sql`
the function returns success (`True`). -/
theorem deploy_sqlfiles_spec {σ : Type} (cmd : σ → String → σ × Option String)
    (s0 : σ) (directory : String) (listing : List String) :
    (listing.filter (fun f => str_endswith f ".sql") = [] →
      deploy_sqlfiles cmd s0 true directory listing = Except.ok true) ∧
    deploy_sqlfiles cmd s0 true directory listing =
      (let files := (listing.filter (fun f => str_endswith f ".sql")).map (path_join directory)
       let failed := sql_file_loop cmd s0 files files.length
       if failed ≠ [] then Except.error (deploy_failure_message failed)
       else Except.ok true) := by
  constructor
  · intro h
    unfold deploy_sqlfiles
    rw [h]
    rfl
  · unfold deploy_sqlfiles
    rw [if_neg (by simp)]
    by_cases hf : sql_file_loop cmd s0
        ((listing.filter (fun f => str_endswith f ".sql")).map (path_join directory))
        ((listing.filter (fun f => str_endswith f ".sql")).map (path_join directory)).length = []
    · simp only [hf]
      rfl
    · have hlen : 0 < (sql_file_loop cmd s0
          ((listing.filter (fun f => str_endswith f ".sql")).map (path_join directory))
          ((listing.filter (fun f => str_endswith f ".sql")).map (path_join directory)).length).length :=
        List.length_pos.mpr hf
      simp only [if_pos hlen, if_pos hf]

/-- Witness for C2: a listing with no `.sql` file deploys as a no-op
success. -/
theorem deploy_sqlfiles_spec_witness :
    deploy_sqlfiles cmd_const_fail () true "d" ["readme.txt"] = Except.ok true :=
  (deploy_sqlfiles_spec cmd_const_fail () "d" ["readme.txt"]).1 (by decide)

lemma mem_foldl_union {α : Type} (g : ActionRegisteration α → Finset String) :
    ∀ (rs : List (ActionRegisteration α)) (acc : Finset String) (n : String),
      n ∈ rs.foldl (fun acc r => acc ∪ g r) acc ↔ n ∈ acc ∨ ∃ r ∈ rs, n ∈ g r := by
  intro rs
  induction rs with
  | nil => intro acc n; simp
  | cons r rest ih =>
    intro acc n
    rw [List.foldl_cons, ih]
    simp only [Finset.mem_union, List.mem_cons]
    constructor
    · rintro (⟨ha | hg⟩ | ⟨x, hx, hgx⟩)
      · exact Or.inl ha
      · exact Or.inr ⟨r, Or.inl rfl, hg⟩
      · exact Or.inr ⟨x, Or.inr hx, hgx⟩
    · rintro (ha | ⟨x, rfl | hx, hgx⟩)
      · exact Or.inl (Or.inl ha)
      · exact Or.inl (Or.inr hgx)
      · exact Or.inr ⟨x, hx, hgx⟩

/-- C4: a multiaction built from registered subactions runs their
functions in order collecting the returns into a list, is marked as
affecting the database exactly when some constituent is, has
`baseactions` the union of the constituents' `baseactions`, and has
`dependencies` the union of the constituents' dependencies minus its
own `baseactions`. -/
theorem create_multiaction_spec {α : Type} (reg : Registry α) (action_name : String)
    (subactions : List String) (rs : List (ActionRegisteration α))
    (h : subactions.mapM (fun sa => dict_lookup reg sa) = some rs) :
    ∃ reg2, create_multiaction reg action_name subactions = some reg2 ∧
      ∃ comp, dict_lookup reg2 action_name = some comp ∧
        (∀ a, comp.function a = PyVal.list (rs.map (fun r => r.function a))) ∧
        (comp.affects_database = true ↔ ∃ r ∈ rs, r.affects_database = true) ∧
        (∀ n, n ∈ comp.baseactions ↔ ∃ r ∈ rs, n ∈ r.baseactions) ∧
        (∀ n, n ∈ comp.dependencies ↔
          ((∃ r ∈ rs, n ∈ r.dependencies) ∧ n ∉ comp.baseactions)) := by
  unfold create_multiaction
  rw [h]
  refine ⟨_, rfl, _, dict_lookup_insert_self reg action_name _, ?_, ?_, ?_, ?_⟩
  · intro a
    rfl
  · show rs.any (fun r => r.affects_database) = true ↔ _
    simp [List.any_eq_true]
  · intro n
    show n ∈ rs.foldl (fun acc r => acc ∪ r.baseactions) ∅ ↔ _
    rw [mem_foldl_union (fun r => r.baseactions) rs ∅ n]
    simp
  · intro n
    show n ∈ (rs.foldl (fun acc r => acc ∪ r.dependencies) ∅)
        \ (rs.foldl (fun acc r => acc ∪ r.baseactions) ∅) ↔ _
    rw [Finset.mem_sdiff, mem_foldl_union (fun r => r.dependencies) rs ∅ n]
    simp

lemma get?_append_left {α : Type} :
    ∀ (l1 l2 : List α) (i : Nat), i < l1.length → (l1 ++ l2).get? i = l1.get? i := by
  intro l1
  induction l1 with
  | nil => intro l2 i hi; simp at hi
  | cons a t ih =>
    intro l2 i hi
    cases i with
    | zero => rfl
    | succ j => exact ih l2 j (Nat.lt_of_succ_lt_succ hi)

lemma heap_read_alloc {h : PyListHeap} {v : List String} {i : Nat}
    (hi : i < h.cells.length) :
    heap_read (heap_alloc h v).1 i = heap_read h i := by
  unfold heap_read heap_alloc
  rw [get?_append_left h.cells [v] i hi]

lemma heap_alloc_length (h : PyListHeap) (v : List String) :
    (heap_alloc h v).1.cells.length = h.cells.length + 1 := by
  simp [heap_alloc]

lemma heap_write_length (h : PyListHeap) (r : Nat) (v : List String) :
    (heap_write h r v).cells.length = h.cells.length := by
  simp [heap_write]

lemma heap_read_write_ne {h : PyListHeap} {r : Nat} {v : List String} {i : Nat}
    (hne : i ≠ r) :
    heap_read (heap_write h r v) i = heap_read h i := by
  unfold heap_read heap_write
  rw [List.get?_set_ne v h.cells (fun hc => hne hc.symm)]

lemma sql_round_heap_frame {σ : Type} (cmd : σ → String → σ × Option String)
    (cl_ref i : Nat) (hne : i ≠ cl_ref) :
    ∀ (snap : List String) (s : σ) (h : PyListHeap) (errs : ErrMap),
      heap_read (sql_round_heap cmd cl_ref snap s h errs).2.1 i = heap_read h i ∧
      (sql_round_heap cmd cl_ref snap s h errs).2.1.cells.length = h.cells.length := by
  intro snap
  induction snap with
  | nil => intro s h errs; exact ⟨rfl, rfl⟩
  | cons f rest ih =>
    intro s h errs
    unfold sql_round_heap
    cases hc : cmd s f with
    | mk s2 r =>
      cases r with
      | none =>
        have hr := ih s2 (heap_write h cl_ref ((heap_read h cl_ref).erase f)) errs
        exact ⟨by rw [hr.1, heap_read_write_ne hne],
          by rw [hr.2, heap_write_length]⟩
      | some e => exact ih s2 h (errAdd errs f ("\n------\n" ++ e))

lemma sql_file_loop_heap_aux_frame {σ : Type} (cmd : σ → String → σ × Option String)
    (cl_ref i : Nat) (hne : i ≠ cl_ref) :
    ∀ (n : Nat) (s : σ) (h : PyListHeap) (errs : ErrMap), i < h.cells.length →
      heap_read (sql_file_loop_heap_aux cmd cl_ref n s h errs).2.1 i = heap_read h i := by
  intro n
  induction n with
  | zero => intro s h errs hi; rfl
  | succ m ih =>
    intro s h errs hi
    unfold sql_file_loop_heap_aux
    dsimp only
    have hal : heap_read (heap_alloc h (heap_read h cl_ref)).1 i = heap_read h i :=
      heap_read_alloc hi
    have hrd := sql_round_heap_frame cmd cl_ref i hne
      (heap_read (heap_alloc h (heap_read h cl_ref)).1 (heap_alloc h (heap_read h cl_ref)).2)
      s (heap_alloc h (heap_read h cl_ref)).1 errs
    rw [ih _ _ _ (by rw [hrd.2, heap_alloc_length]; exact Nat.lt_succ_of_lt hi),
      hrd.1, hal]

/-- C9: `sql_file_loop` never mutates its `file_list` argument: in the
heap-level embedding, the list object the caller passed in holds the
same elements in the same order after the call, because the loop copies
it and removes only from the copy. -/
theorem sql_file_loop_no_mutation {σ : Type} (cmd : σ → String → σ × Option String)
    (s0 : σ) (h0 : PyListHeap) (fl_ref max_loop : Nat)
    (href : fl_ref < h0.cells.length) :
    heap_read (sql_file_loop_heap cmd s0 h0 fl_ref max_loop).1 fl_ref
      = heap_read h0 fl_ref := by
  unfold sql_file_loop_heap
  dsimp only
  rw [sql_file_loop_heap_aux_frame cmd (heap_alloc h0 (heap_read h0 fl_ref)).2 fl_ref
    (Nat.ne_of_lt href) max_loop s0 (heap_alloc h0 (heap_read h0 fl_ref)).1 []
    (by rw [heap_alloc_length]; exact Nat.lt_succ_of_lt href)]
  exact heap_read_alloc href

/-- Witness for C9: a one-cell heap whose only list survives a failing
two-round loop unchanged. -/
theorem sql_file_loop_no_mutation_witness :
    heap_read (sql_file_loop_heap cmd_const_fail () ⟨[["a", "b"]]⟩ 0 2).1 0
      = heap_read ⟨[["a", "b"]]⟩ 0 :=
  sql_file_loop_no_mutation cmd_const_fail () ⟨[["a", "b"]]⟩ 0 2 (by decide)

lemma errGet_errAdd_self : ∀ (m : ErrMap) (f e : String), errGet (errAdd m f e) f ≠ [] := by
  intro m
  induction m with
  | nil =>
    intro f e
    unfold errAdd errGet
    simp [List.find?]
  | cons p rest ih =>
    intro f e
    rcases p with ⟨g, es⟩
    simp only [errAdd]
    by_cases hg : g = f
    · rw [if_pos hg]
      unfold errGet
      rw [List.find?_cons_of_pos _ (by simp [hg])]
      by_cases he : e ∈ es
      · simp only [if_pos he]
        intro hc
        rw [hc] at he
        exact absurd he (List.not_mem_nil e)
      · simp only [if_neg he]
        simp
    · rw [if_neg hg]
      unfold errGet
      rw [List.find?_cons_of_neg _ (by simp [hg])]
      exact ih f e

lemma errGet_errAdd_ne : ∀ (m : ErrMap) (f g e : String), g ≠ f →
    errGet (errAdd m f e) g = errGet m g := by
  intro m
  induction m with
  | nil =>
    intro f g e hne
    unfold errAdd errGet
    rw [List.find?_cons_of_neg _ (by simp; exact fun hc => hne hc.symm)]
  | cons p rest ih =>
    intro f g e hne
    rcases p with ⟨a, es⟩
    simp only [errAdd]
    by_cases ha : a = f
    · rw [if_pos ha]
      have hag : a ≠ g := by rw [ha]; exact fun hc => hne hc.symm
      unfold errGet
      rw [List.find?_cons_of_neg _ (by simp [hag]),
        List.find?_cons_of_neg _ (by simp [hag])]
    · rw [if_neg ha]
      by_cases hag : a = g
      · unfold errGet
        rw [List.find?_cons_of_pos _ (by simp [hag]),
          List.find?_cons_of_pos _ (by simp [hag])]
      · unfold errGet
        rw [List.find?_cons_of_neg _ (by simp [hag]),
          List.find?_cons_of_neg _ (by simp [hag])]
        exact ih f g e hne

lemma errGet_errAdd_nonempty (m : ErrMap) (f g e : String) (h : errGet m g ≠ []) :
    errGet (errAdd m f e) g ≠ [] := by
  by_cases hg : g = f
  · subst hg
    exact errGet_errAdd_self m g e
  · rw [errGet_errAdd_ne m f g e hg]
    exact h

lemma ErrsGood_nil : ErrsGood [] := by
  intro p hp
  exact absurd hp (List.not_mem_nil p)

lemma ErrsGood_errAdd : ∀ (m : ErrMap), ErrsGood m → ∀ (f t : String),
    ErrsGood (errAdd m f ("\n------\n" ++ t)) := by
  intro m
  induction m with
  | nil =>
    intro _ f t q hq
    simp only [errAdd] at hq
    rw [List.mem_singleton] at hq
    subst hq
    refine ⟨by simp, List.nodup_singleton _, ?_⟩
    intro e he
    rw [List.mem_singleton] at he
    exact ⟨t, he⟩
  | cons p0 rest ih =>
    intro hm f t
    rcases p0 with ⟨g, es⟩
    have hhead := hm (g, es) (List.mem_cons_self _ _)
    have htail : ErrsGood rest := fun q hq => hm q (List.mem_cons_of_mem _ hq)
    intro q hq
    simp only [errAdd] at hq
    by_cases hg : g = f
    · rw [if_pos hg] at hq
      rcases List.mem_cons.mp hq with hq1 | hq2
      · subst hq1
        by_cases he : ("\n------\n" ++ t) ∈ es
        · simp only [if_pos he]
          exact hhead
        · simp only [if_neg he]
          refine ⟨by simp, ?_, ?_⟩
          · rw [List.nodup_append]
            refine ⟨hhead.2.1, List.nodup_singleton _, ?_⟩
            intro x hx hx1
            rw [List.mem_singleton] at hx1
            subst hx1
            exact he hx
          · intro e heq
            rcases List.mem_append.mp heq with h1 | h2
            · exact hhead.2.2 e h1
            · rw [List.mem_singleton] at h2
              exact ⟨t, h2⟩
      · exact htail q hq2
    · rw [if_neg hg] at hq
      rcases List.mem_cons.mp hq with hq1 | hq2
      · subst hq1
        exact hhead
      · exact ih htail f t q hq2

lemma errGet_spec (m : ErrMap) (f : String) :
    errGet m f = [] ∨ ∃ p ∈ m, p.2 = errGet m f := by
  unfold errGet
  cases hf : m.find? (fun p => p.1 == f) with
  | none => exact Or.inl rfl
  | some p => exact Or.inr ⟨p, List.mem_of_find?_eq_some hf, rfl⟩

lemma dedup_keys_aux_of_nodup :
    ∀ (l seen : List String), l.Nodup → (∀ f ∈ l, f ∉ seen) →
      dedup_keys_aux seen l = l := by
  intro l
  induction l with
  | nil => intro seen _ _; rfl
  | cons f rest ih =>
    intro seen hnd hdis
    simp only [dedup_keys_aux]
    rw [if_neg (hdis f (List.mem_cons_self f rest))]
    congr 1
    apply ih (f :: seen) (List.nodup_cons.mp hnd).2
    intro g hg hc
    rcases List.mem_cons.mp hc with hc1 | hc2
    · subst hc1
      exact (List.nodup_cons.mp hnd).1 hg
    · exact hdis g (List.mem_cons_of_mem f hg) hc2

lemma dedup_keys_of_nodup (l : List String) (h : l.Nodup) : dedup_keys l = l :=
  dedup_keys_aux_of_nodup l [] h (fun f _ => List.not_mem_nil f)

lemma sql_round_cl {σ : Type} (cmd : σ → String → σ × Option String) (K : String → Bool)
    (items : List String)
    (hfail : ∀ (s : σ) (f : String), f ∈ items → (cmd s f).2.isSome = K f) :
    ∀ (snap : List String), (∀ f ∈ snap, f ∈ items) →
    ∀ (pre : List String) (s : σ) (errs : ErrMap), (pre ++ snap).Nodup →
      (sql_round cmd snap s (pre.filter (fun g => K g) ++ snap) errs).2.1
        = (pre ++ snap).filter (fun g => K g) := by
  intro snap
  induction snap with
  | nil =>
    intro _ pre s errs _
    simp [sql_round]
  | cons f rest ih =>
    intro hsub pre s errs hnd
    have hf_items : f ∈ items := hsub f (List.mem_cons_self f rest)
    have hrest_sub : ∀ g ∈ rest, g ∈ items :=
      fun g hg => hsub g (List.mem_cons_of_mem f hg)
    have hf_pre : f ∉ pre := by
      rcases List.nodup_append.mp hnd with ⟨-, -, hdisj⟩
      intro hc
      exact hdisj hc (List.mem_cons_self f rest)
    have hnd2 : ((pre ++ [f]) ++ rest).Nodup := by
      rw [List.append_assoc, List.singleton_append]
      exact hnd
    simp only [sql_round]
    cases hc : cmd s f with
    | mk s2 r =>
      have hKf : r.isSome = K f := by
        have hx := hfail s f hf_items
        rw [hc] at hx
        exact hx
      cases r with
      | none =>
        have hKf0 : K f = false := by rw [← hKf]; rfl
        have herase : ((pre.filter (fun g => K g) ++ f :: rest).erase f)
            = pre.filter (fun g => K g) ++ rest := by
          rw [List.erase_append_right _
            (fun hc2 => hf_pre (List.mem_of_mem_filter hc2)),
            List.erase_cons_head]
        have hIH := ih hrest_sub (pre ++ [f]) s2 errs hnd2
        have e1 : (pre ++ [f]).filter (fun g => K g) = pre.filter (fun g => K g) := by
          rw [List.filter_append]
          simp [hKf0]
        have e2 : (pre ++ [f]) ++ rest = pre ++ f :: rest := by
          rw [List.append_assoc, List.singleton_append]
        rw [e1, e2] at hIH
        show (sql_round cmd rest s2 ((pre.filter (fun g => K g) ++ f :: rest).erase f)
          errs).2.1 = (pre ++ f :: rest).filter (fun g => K g)
        rw [herase]
        exact hIH
      | some e =>
        have hKf1 : K f = true := by rw [← hKf]; rfl
        have hIH := ih hrest_sub (pre ++ [f]) s2 (errAdd errs f ("\n------\n" ++ e)) hnd2
        have e1 : (pre ++ [f]).filter (fun g => K g)
            = pre.filter (fun g => K g) ++ [f] := by
          rw [List.filter_append]
          simp [hKf1]
        have e2 : (pre ++ [f]) ++ rest = pre ++ f :: rest := by
          rw [List.append_assoc, List.singleton_append]
        have e3 : pre.filter (fun g => K g) ++ [f] ++ rest
            = pre.filter (fun g => K g) ++ f :: rest := by
          rw [List.append_assoc, List.singleton_append]
        rw [e1, e2, e3] at hIH
        exact hIH

lemma sql_round_errs {σ : Type} (cmd : σ → String → σ × Option String) (K : String → Bool)
    (items : List String)
    (hfail : ∀ (s : σ) (f : String), f ∈ items → (cmd s f).2.isSome = K f) :
    ∀ (snap : List String), (∀ f ∈ snap, f ∈ items) →
    ∀ (s : σ) (cl : List String) (errs : ErrMap), ErrsGood errs →
      ErrsGood (sql_round cmd snap s cl errs).2.2 ∧
      (∀ g, errGet errs g ≠ [] → errGet (sql_round cmd snap s cl errs).2.2 g ≠ []) ∧
      (∀ g ∈ snap, K g = true → errGet (sql_round cmd snap s cl errs).2.2 g ≠ []) := by
  intro snap
  induction snap with
  | nil =>
    intro _ s cl errs hgood
    exact ⟨hgood, fun g h => h, fun g hg _ => absurd hg (List.not_mem_nil g)⟩
  | cons f rest ih =>
    intro hsub s cl errs hgood
    have hf_items : f ∈ items := hsub f (List.mem_cons_self f rest)
    have hrest_sub : ∀ g ∈ rest, g ∈ items :=
      fun g hg => hsub g (List.mem_cons_of_mem f hg)
    simp only [sql_round]
    cases hc : cmd s f with
    | mk s2 r =>
      have hKf : r.isSome = K f := by
        have hx := hfail s f hf_items
        rw [hc] at hx
        exact hx
      cases r with
      | none =>
        have hKf0 : K f = false := by rw [← hKf]; rfl
        have hIH := ih hrest_sub s2 (cl.erase f) errs hgood
        refine ⟨hIH.1, hIH.2.1, ?_⟩
        intro g hg hKg
        rcases List.mem_cons.mp hg with hg1 | hg2
        · subst hg1
          rw [hKg] at hKf0
          exact absurd hKf0 (by simp)
        · exact hIH.2.2 g hg2 hKg
      | some e =>
        have hgood2 : ErrsGood (errAdd errs f ("\n------\n" ++ e)) :=
          ErrsGood_errAdd errs hgood f e
        have hIH := ih hrest_sub s2 cl (errAdd errs f ("\n------\n" ++ e)) hgood2
        refine ⟨hIH.1, ?_, ?_⟩
        · intro g hg
          exact hIH.2.1 g (errGet_errAdd_nonempty errs f g _ hg)
        · intro g hg hKg
          rcases List.mem_cons.mp hg with hg1 | hg2
          · subst hg1
            exact hIH.2.1 g (errGet_errAdd_self errs g _)
          · exact hIH.2.2 g hg2 hKg

lemma sql_file_loop_aux_succ {σ : Type} (cmd : σ → String → σ × Option String)
    (n : Nat) (s : σ) (cl : List String) (errs : ErrMap) :
    sql_file_loop_aux cmd (n + 1) s cl errs
      = sql_file_loop_aux cmd n (sql_round cmd cl s cl errs).1
          (sql_round cmd cl s cl errs).2.1 (sql_round cmd cl s cl errs).2.2 := rfl

lemma sql_file_loop_aux_inv {σ : Type} (cmd : σ → String → σ × Option String)
    (K : String → Bool) (items : List String)
    (hfail : ∀ (s : σ) (f : String), f ∈ items → (cmd s f).2.isSome = K f) :
    ∀ (n : Nat) (s : σ) (cl : List String) (errs : ErrMap),
      cl.Nodup → (∀ f ∈ cl, f ∈ items) → (∀ f ∈ cl, K f = true) →
      ErrsGood errs → (∀ g ∈ cl, errGet errs g ≠ []) →
      (sql_file_loop_aux cmd n s cl errs).2.1 = cl ∧
      ErrsGood (sql_file_loop_aux cmd n s cl errs).2.2 ∧
      (∀ g ∈ cl, errGet (sql_file_loop_aux cmd n s cl errs).2.2 g ≠ []) := by
  intro n
  induction n with
  | zero =>
    intro s cl errs _ _ _ hgood hne
    exact ⟨rfl, hgood, hne⟩
  | succ m ih =>
    intro s cl errs hnd hsub hK hgood hne
    rw [sql_file_loop_aux_succ]
    have hcl_round : (sql_round cmd cl s cl errs).2.1 = cl := by
      have h0 := sql_round_cl cmd K items hfail cl hsub [] s errs (by simpa using hnd)
      simp only [List.filter_nil, List.nil_append] at h0
      rw [h0]
      exact List.filter_eq_self.mpr hK
    have herr := sql_round_errs cmd K items hfail cl hsub s cl errs hgood
    have hIH := ih (sql_round cmd cl s cl errs).1 (sql_round cmd cl s cl errs).2.1
      (sql_round cmd cl s cl errs).2.2 (by rw [hcl_round]; exact hnd)
      (by rw [hcl_round]; exact hsub) (by rw [hcl_round]; exact hK)
      herr.1 (by rw [hcl_round]; intro g hg; exact herr.2.2 g hg (hK g hg))
    refine ⟨?_, hIH.2.1, ?_⟩
    · rw [hIH.1]
      exact hcl_round
    · intro g hg
      apply hIH.2.2
      rw [hcl_round]
      exact hg

lemma sql_file_loop_eq {σ : Type} (cmd : σ → String → σ × Option String)
    (s0 : σ) (file_list : List String) (max_loop : Nat) :
    sql_file_loop cmd s0 file_list max_loop =
      (if (sql_file_loop_aux cmd max_loop s0 file_list []).2.1.length > 0 then
        (dedup_keys ((sql_file_loop_aux cmd max_loop s0 file_list []).2.1)).map
          (fun f => (f, errGet (sql_file_loop_aux cmd max_loop s0 file_list []).2.2 f))
      else []) := rfl

/-- C1 (amended): when the command fails exactly on the items of `K`
in every round, `sql_file_loop` with a positive round bound returns a
mapping whose keys are exactly the failing items in input order, and
each key's value is a non-empty duplicate-free list of separator-prefixed
error entries — one entry per distinct error string, not one per
round. -/
theorem sql_file_loop_always_failing {σ : Type} (cmd : σ → String → σ × Option String)
    (K : String → Bool) (items : List String) (max_loop : Nat) (s0 : σ)
    (hnd : items.Nodup) (hpos : 0 < max_loop)
    (hfail : ∀ (s : σ) (f : String), f ∈ items → (cmd s f).2.isSome = K f) :
    (sql_file_loop cmd s0 items max_loop).map Prod.fst
        = items.filter (fun g => K g) ∧
    ∀ p ∈ sql_file_loop cmd s0 items max_loop,
      p.2 ≠ [] ∧ p.2.Nodup ∧ ∀ e ∈ p.2, ∃ t, e = "\n------\n" ++ t := by
  obtain ⟨m, rfl⟩ : ∃ m, max_loop = m + 1 :=
    ⟨max_loop - 1, (Nat.succ_pred_eq_of_pos hpos).symm⟩
  rw [sql_file_loop_eq, sql_file_loop_aux_succ]
  have hcl1 : (sql_round cmd items s0 items []).2.1 = items.filter (fun g => K g) := by
    have h0 := sql_round_cl cmd K items hfail items (fun f hf => hf) [] s0 []
      (by simpa using hnd)
    simpa using h0
  have herr1 := sql_round_errs cmd K items hfail items (fun f hf => hf) s0 items []
    ErrsGood_nil
  have hfnd : (items.filter (fun g => K g)).Nodup := hnd.filter _
  have hfsub : ∀ f ∈ items.filter (fun g => K g), f ∈ items :=
    fun f hf => List.mem_of_mem_filter hf
  have hfK : ∀ f ∈ items.filter (fun g => K g), K f = true :=
    fun f hf => List.of_mem_filter hf
  have hfne : ∀ g ∈ items.filter (fun g => K g),
      errGet (sql_round cmd items s0 items []).2.2 g ≠ [] := by
    intro g hg
    exact herr1.2.2 g (List.mem_of_mem_filter hg) (List.of_mem_filter hg)
  have hIH := sql_file_loop_aux_inv cmd K items hfail m (sql_round cmd items s0 items []).1
    (sql_round cmd items s0 items []).2.1 (sql_round cmd items s0 items []).2.2
    (by rw [hcl1]; exact hfnd) (by rw [hcl1]; exact hfsub) (by rw [hcl1]; exact hfK)
    herr1.1 (by rw [hcl1]; exact hfne)
  have hclfin : (sql_file_loop_aux cmd m (sql_round cmd items s0 items []).1
      (sql_round cmd items s0 items []).2.1 (sql_round cmd items s0 items []).2.2).2.1
      = items.filter (fun g => K g) := by
    rw [hIH.1, hcl1]
  rw [hclfin]
  by_cases hempty : items.filter (fun g => K g) = []
  · rw [hempty]
    simp
  · have hlen : 0 < (items.filter (fun g => K g)).length :=
      List.length_pos.mpr hempty
    rw [if_pos hlen, dedup_keys_of_nodup _ hfnd]
    constructor
    · rw [List.map_map]
      exact List.map_id _
    · intro p hp
      rcases List.mem_map.mp hp with ⟨f, hf, hpf⟩
      subst hpf
      have hne2 : errGet (sql_file_loop_aux cmd m (sql_round cmd items s0 items []).1
          (sql_round cmd items s0 items []).2.1
          (sql_round cmd items s0 items []).2.2).2.2 f ≠ [] := by
        apply hIH.2.2
        rw [hcl1]
        exact hf
      refine ⟨hne2, ?_, ?_⟩
      all_goals
        rcases errGet_spec ((sql_file_loop_aux cmd m (sql_round cmd items s0 items []).1
          (sql_round cmd items s0 items []).2.1
          (sql_round cmd items s0 items []).2.2).2.2) f with h0 | ⟨q, hq, hq2⟩
      · exact absurd h0 hne2
      · have hqg := hIH.2.1 q hq
        rw [← hq2]
        exact hqg.2.1
      · exact absurd h0 hne2
      · have hqg := hIH.2.1 q hq
        rw [← hq2]
        exact hqg.2.2

/-- Witness for C1 on a single always-failing item over two rounds. -/
theorem sql_file_loop_always_failing_witness :
    (sql_file_loop cmd_const_fail () ["a"] 2).map Prod.fst
        = ["a"].filter (fun _ => true) ∧
    ∀ p ∈ sql_file_loop cmd_const_fail () ["a"] 2,
      p.2 ≠ [] ∧ p.2.Nodup ∧ ∀ e ∈ p.2, ∃ t, e = "\n------\n" ++ t :=
  sql_file_loop_always_failing cmd_const_fail (fun _ => true) ["a"] 2 ()
    (by decide) (by decide) (fun _ _ _ => rfl)

/-- C1 counterexample: with `max_rounds = 2` and an item that fails
both rounds with the same error string, the accumulated history holds
one entry, not two — the Python accumulator is a `set`, deduplicating
identical errors. -/
theorem sql_file_loop_dedup_counterexample :
    sql_file_loop cmd_const_fail () ["a"] 2 = [("a", ["\n------\nboom"])] ∧
    ¬(∀ p ∈ sql_file_loop cmd_const_fail () ["a"] 2, p.2.length = 2) := by decide

/-- Witness for C4 on a concrete two-subaction composite. -/
theorem create_multiaction_spec_witness :
    ∃ reg2, create_multiaction reg_two "both" ["a1", "a2"] = some reg2 ∧
      ∃ comp, dict_lookup reg2 "both" = some comp ∧
        (∀ a, comp.function a
          = PyVal.list ([act_a1, act_a2].map (fun r => r.function a))) ∧
        (comp.affects_database = true ↔ ∃ r ∈ [act_a1, act_a2], r.affects_database = true) ∧
        (∀ n, n ∈ comp.baseactions ↔ ∃ r ∈ [act_a1, act_a2], n ∈ r.baseactions) ∧
        (∀ n, n ∈ comp.dependencies ↔
          ((∃ r ∈ [act_a1, act_a2], n ∈ r.dependencies) ∧ n ∉ comp.baseactions)) :=
  create_multiaction_spec reg_two "both" ["a1", "a2"] [act_a1, act_a2] rfl

example : drop_sql_from_file "ASSEMBLY" "assembly_name.sql"
    = Except.ok "DROP ASSEMBLY assembly_name" := by decide

example : drop_sql_from_file "VIEW" "bad.name.with.too.many.parts.sql"
    = Except.error "File bad.name.with.too.many.parts.sql not in <schema.object.sql> format." := by
  decide

example :
    sql_file_loop (fun (s : Unit) _ => (s, some "boom")) () ["a"] 2
      = [("a", ["\n------\nboom"])] := by decide

example :
    sql_file_loop (fun (s : Unit) _ => (s, none)) () ["a", "b"] 2 = [] := by decide
